import Mathlib

/-!
# Verification of the concrete-geth precompile core

Shallow embedding of the concrete-geth repository:

* the on-storage datastore collections (`array`, `mapping`, `set` from the
  `api` package, file `src/unnamed/part_002`),
* the StateDB access wrappers and the precompile dispatcher (their
  implementations are not among the provided sources, only their tests in
  `src/unnamed/part_000` and `src/unnamed/part_003`; they are modelled from
  the specification, as marked on each definition),
* the environment error latching (`Env.setError` / `Env.Error`,
  `src/unnamed/part_001`),
* the guest-side WASM exports `concrete_Finalise` / `concrete_Commit`
  (`src/unnamed/part_004`).

Hashes (`common.Hash`) are 256-bit words, modelled as `Nat` reduced modulo
`2 ^ 256` wherever the Go code reduces (`common.BigToHash`).  Keccak-256 is
not computed; the datastore definitions are parametrised by a `KeccakModel`
(`k1` for one-argument hashing, `k2` for the two-argument
`Keccak256Hash(key, id)` form), and theorems carry the collision-freeness
facts they need as explicit hypotheses, discharged on concrete instances.
-/

namespace ConcreteGeth

/-- 2^256, the size of the `common.Hash` value space. -/
def HashMod : Nat := 2 ^ 256

/-- Point update of a slot map (storage is a total map `Hash → Hash`,
missing keys read as the zero hash, matching the SlotStore contract). -/
def upd (f : Nat → Nat) (k v : Nat) : Nat → Nat :=
  fun x => if x = k then v else f x

/-- Point update of a two-argument map (address- and key-scoped state). -/
def upd2 (f : Nat → Nat → Nat) (a k v : Nat) : Nat → Nat → Nat :=
  fun a' k' => if a' = a then (if k' = k then v else f a' k') else f a' k'

/-- Go `int(bigInt.Int64())` applied to a non-negative big integer: the low
64 bits reinterpreted as a signed two's-complement value.  This is how
`array.getLength` reads the stored length hash. -/
def int64OfNat (n : Nat) : Int :=
  let m : Nat := n % 2 ^ 64
  if m < 2 ^ 63 then (m : Int) else (m : Int) - 2 ^ 64

/-- Go `common.BigToHash`: the absolute value of the big integer, reduced
modulo 2^256 (big.Int.Bytes() yields the absolute value's bytes and
BytesToHash keeps the last 32 bytes). -/
def bigToHash (x : Int) : Nat := x.natAbs % HashMod

/-- Model of Keccak-256 at the two arities used by the datastore:
`k1 h` stands for `Keccak256Hash(h.Bytes())` and `k2 k id` for
`Keccak256Hash(k.Bytes(), id.Bytes())`. -/
structure KeccakModel where
  k1 : Nat → Nat
  k2 : Nat → Nat → Nat

/-- A concrete, collision-free-on-small-inputs instance of `KeccakModel`
used to evaluate theorems and counterexamples on explicit inputs. -/
def Kc : KeccakModel where
  k1 := fun n => 1000 + 7 * n
  k2 := fun k id => 100000 + 541 * k + 10007 * id

/-! ## Datastore collections (translated from `src/unnamed/part_002`)

A `Storage` handle scoped to one address is a slot map `Nat → Nat`; the
datastore's `Get`/`Set` are function application and `upd`. -/

/-- `mapping.key`: slot of map entry `k` is `Keccak256Hash(k, id)`. -/
def mapKey (K : KeccakModel) (id k : Nat) : Nat := K.k2 k id

/-- `mapping.Get`. -/
def mapGet (K : KeccakModel) (id : Nat) (st : Nat → Nat) (k : Nat) : Nat :=
  st (mapKey K id k)

/-- `mapping.Set`. -/
def mapSet (K : KeccakModel) (id : Nat) (st : Nat → Nat) (k v : Nat) : Nat → Nat :=
  upd st (mapKey K id k) v

/-- `array.key`: element `i` lives at slot `BigToHash(Keccak256(id) + i)`
(big-integer addition, possibly negative index). -/
def arrayKey (K : KeccakModel) (id : Nat) (i : Int) : Nat :=
  bigToHash ((K.k1 id : Int) + i)

/-- `array.getLength`: the length slot is `id` itself; the stored hash is
read back through `int(…Big().Int64())`. -/
def arrayGetLength (st : Nat → Nat) (id : Nat) : Int :=
  int64OfNat (st id)

/-- `array.setLength`. -/
def arraySetLength (st : Nat → Nat) (id : Nat) (n : Int) : Nat → Nat :=
  upd st id (bigToHash n)

/-- `array.Get`: an index `≥ Length` reads as the zero hash; any other
index (negative included — the code only checks the upper bound) reads the
derived slot. -/
def arrayGet (K : KeccakModel) (id : Nat) (st : Nat → Nat) (i : Int) : Nat :=
  if arrayGetLength st id ≤ i then 0 else st (arrayKey K id i)

/-- `array.Set`: an index `≥ Length` is a hard error (Go panic, modelled as
`Except.error`); any other index, negative included, writes the derived
slot. -/
def arraySet (K : KeccakModel) (id : Nat) (st : Nat → Nat) (i : Int) (v : Nat) :
    Except Unit (Nat → Nat) :=
  if arrayGetLength st id ≤ i then Except.error ()
  else Except.ok (upd st (arrayKey K id i) v)

/-- `array.Push`: store length+1, then `Set` the former length (the inner
`Set` re-reads the already-updated length). -/
def arrayPush (K : KeccakModel) (id : Nat) (st : Nat → Nat) (v : Nat) :
    Except Unit (Nat → Nat) :=
  let len := arrayGetLength st id
  let st1 := arraySetLength st id (len + 1)
  arraySet K id st1 len v

/-- `array.Pop`: zero hash on an exactly-zero length, else read the last
element and store length-1. -/
def arrayPop (K : KeccakModel) (id : Nat) (st : Nat → Nat) : Nat × (Nat → Nat) :=
  let len := arrayGetLength st id
  if len = 0 then (0, st)
  else (arrayGet K id st (len - 1), arraySetLength st id (len - 1))

/-- `array.Swap`: bounds-checked on both indices (upper bound only), then
`Set(i, Get(j)); Set(j, old Get(i))`. -/
def arraySwap (K : KeccakModel) (id : Nat) (st : Nat → Nat) (i j : Int) :
    Except Unit (Nat → Nat) :=
  if arrayGetLength st id ≤ i ∨ arrayGetLength st id ≤ j then Except.error ()
  else
    let iv := arrayGet K id st i
    match arraySet K id st i (arrayGet K id st j) with
    | Except.error e => Except.error e
    | Except.ok st1 => arraySet K id st1 j iv

/-- `set.valueArray`'s id: `Keccak256(id)` (also the length slot of the
value array). -/
def setArrayId (K : KeccakModel) (id : Nat) : Nat := K.k1 id

/-- `set.indexMap`'s id: `BigToHash(Keccak256(id) + 1)`. -/
def setMapId (K : KeccakModel) (id : Nat) : Nat := (K.k1 id + 1) % HashMod

/-- `set.Size` = length of the value array. -/
def setSize (K : KeccakModel) (id : Nat) (st : Nat → Nat) : Int :=
  arrayGetLength st (setArrayId K id)

/-- `set.Has`: false on an empty set; otherwise a zero index-map entry is
disambiguated by comparing against element 0, and any non-zero entry means
present. -/
def setHas (K : KeccakModel) (id : Nat) (st : Nat → Nat) (v : Nat) : Bool :=
  if setSize K id st = 0 then false
  else
    let index := mapGet K (setMapId K id) st v
    if index = 0 then decide (v = arrayGet K (setArrayId K id) st 0)
    else true

/-- `set.Add`: no-op when `Has`; otherwise record the current array length
in the index map (`BigToHash(index)`, i.e. the 0-based index, not
index+1), then push the value. -/
def setAdd (K : KeccakModel) (id : Nat) (st : Nat → Nat) (v : Nat) :
    Except Unit (Nat → Nat) :=
  if setHas K id st v then Except.ok st
  else
    let index := arrayGetLength st (setArrayId K id)
    let st1 := mapSet K (setMapId K id) st v (bigToHash index)
    arrayPush K (setArrayId K id) st1 v

/-- `set.Remove`: no-op when not `Has`; otherwise swap the recorded index
with the last position, pop, and clear the removed value's map entry.  (The
displaced last element's map entry is not updated.) -/
def setRemove (K : KeccakModel) (id : Nat) (st : Nat → Nat) (v : Nat) :
    Except Unit (Nat → Nat) :=
  if setHas K id st v then
    let index := int64OfNat (mapGet K (setMapId K id) st v)
    match arraySwap K (setArrayId K id) st index
        (arrayGetLength st (setArrayId K id) - 1) with
    | Except.error e => Except.error e
    | Except.ok st1 =>
      let st2 := (arrayPop K (setArrayId K id) st1).2
      Except.ok (mapSet K (setMapId K id) st2 v 0)
  else Except.ok st

/-- A set operation of a history. -/
inductive SetOp where
  | add (v : Nat)
  | remove (v : Nat)
deriving DecidableEq, Repr

/-- Run a history of set operations from a state, propagating hard errors. -/
def runSetOps (K : KeccakModel) (id : Nat) (st : Nat → Nat) :
    List SetOp → Except Unit (Nat → Nat)
  | [] => Except.ok st
  | op :: rest =>
    let r := match op with
      | SetOp.add v => setAdd K id st v
      | SetOp.remove v => setRemove K id st v
    match r with
    | Except.error e => Except.error e
    | Except.ok st' => runSetOps K id st' rest

/-- In-order list of distinct values accumulated by a sequence of `Add`s. -/
def foldAdd (mem : List Nat) (vs : List Nat) : List Nat :=
  vs.foldl (fun acc v => if v ∈ acc then acc else acc ++ [v]) mem

/-! ## StateDB, access wrappers and dispatcher

The `StateDB` interface and the `RunPrecompile` dispatcher are exercised by
the tests in `src/unnamed/part_000` and `src/unnamed/part_003`, but their
implementations are not among the provided sources; the definitions below
are modelled from the specification (sections 4.1, 4.2 and 4.6), as marked. -/

/-- Modelled from the spec: the slot-level StateDB state — persistent and
ephemeral slot lanes scoped by `(address, key)`, plus the two preimage
lanes (a missing preimage reads as empty bytes, spec section 4.1). -/
structure StateDBState where
  persistent : Nat → Nat → Nat
  ephemeral : Nat → Nat → Nat
  persistentPreimages : Nat → List Nat
  ephemeralPreimages : Nat → List Nat

/-- The zero StateDB state: every slot reads as the zero hash and no
preimage is known. -/
def StateDBState.zero : StateDBState where
  persistent := fun _ _ => 0
  ephemeral := fun _ _ => 0
  persistentPreimages := fun _ => []
  ephemeralPreimages := fun _ => []

/-- The three capability levels a StateDB handle can have: the bare store,
the `ReadOnlyStateDB` decorator and the `CommitSafeStateDB` decorator. -/
inductive Wrapper where
  | plain
  | readOnly
  | commitSafe
deriving DecidableEq, Repr

/-- One StateDB method invocation with its arguments. -/
inductive DBCall where
  | setPersistentState (a k v : Nat)
  | setEphemeralState (a k v : Nat)
  | addPersistentPreimage (h : Nat) (p : List Nat)
  | addEphemeralPreimage (h : Nat) (p : List Nat)
  | getPersistentState (a k : Nat)
  | getEphemeralState (a k : Nat)
  | getPersistentPreimage (h : Nat)
  | getPersistentPreimageSize (h : Nat)
  | getEphemeralPreimage (h : Nat)
  | getEphemeralPreimageSize (h : Nat)
deriving DecidableEq, Repr

/-- Whether a call mutates the underlying store (the `Set*` and
`Add*Preimage` methods). -/
def DBCall.isMutating : DBCall → Bool
  | DBCall.setPersistentState _ _ _ => true
  | DBCall.setEphemeralState _ _ _ => true
  | DBCall.addPersistentPreimage _ _ => true
  | DBCall.addEphemeralPreimage _ _ => true
  | _ => false

/-- Whether a call mutates persistent (consensus-visible) state. -/
def DBCall.isPersistentMutation : DBCall → Bool
  | DBCall.setPersistentState _ _ _ => true
  | DBCall.addPersistentPreimage _ _ => true
  | _ => false

/-- Modelled from the spec: which calls a wrapper rejects with a hard error.
`ReadOnlyStateDB` blocks every mutating call; `CommitSafeStateDB` blocks
only `SetPersistentState` (spec section 4.2 and the method table of
`TestStateDB` in `src/unnamed/part_000`). -/
def blockedBy (w : Wrapper) (c : DBCall) : Bool :=
  match w with
  | Wrapper.plain => false
  | Wrapper.readOnly => c.isMutating
  | Wrapper.commitSafe =>
    match c with
    | DBCall.setPersistentState _ _ _ => true
    | _ => false

/-- Result value of a StateDB method. -/
inductive DBOut where
  | unit
  | hash (h : Nat)
  | bytes (bs : List Nat)
  | size (n : Nat)
deriving DecidableEq, Repr

/-- Modelled from the spec: the unwrapped semantics of each StateDB method
(spec section 4.1 — setters are total, missing keys read as the zero hash,
missing preimages as empty bytes with size 0). -/
def applyCall (st : StateDBState) : DBCall → StateDBState × DBOut
  | DBCall.setPersistentState a k v =>
    ({ st with persistent := upd2 st.persistent a k v }, DBOut.unit)
  | DBCall.setEphemeralState a k v =>
    ({ st with ephemeral := upd2 st.ephemeral a k v }, DBOut.unit)
  | DBCall.addPersistentPreimage h p =>
    ({ st with persistentPreimages := fun h' =>
        if h' = h then p else st.persistentPreimages h' }, DBOut.unit)
  | DBCall.addEphemeralPreimage h p =>
    ({ st with ephemeralPreimages := fun h' =>
        if h' = h then p else st.ephemeralPreimages h' }, DBOut.unit)
  | DBCall.getPersistentState a k => (st, DBOut.hash (st.persistent a k))
  | DBCall.getEphemeralState a k => (st, DBOut.hash (st.ephemeral a k))
  | DBCall.getPersistentPreimage h => (st, DBOut.bytes (st.persistentPreimages h))
  | DBCall.getPersistentPreimageSize h =>
    (st, DBOut.size (st.persistentPreimages h).length)
  | DBCall.getEphemeralPreimage h => (st, DBOut.bytes (st.ephemeralPreimages h))
  | DBCall.getEphemeralPreimageSize h =>
    (st, DBOut.size (st.ephemeralPreimages h).length)

/-- Modelled from the spec: a StateDB method invoked through a wrapper — a
blocked call raises a hard error (Go panic, `Except.error`), any other call
passes through to the wrapped store. -/
def callStateDB (w : Wrapper) (st : StateDBState) (c : DBCall) :
    Except Unit (StateDBState × DBOut) :=
  if blockedBy w c then Except.error () else Except.ok (applyCall st c)

/-- Execute a sequence of StateDB calls through a wrapper, stopping at the
first hard error. -/
def execCalls (w : Wrapper) (st : StateDBState) : List DBCall → Except Unit StateDBState
  | [] => Except.ok st
  | c :: rest =>
    match callStateDB w st c with
    | Except.error e => Except.error e
    | Except.ok (st', _) => execCalls w st' rest

/-- A precompile as the dispatcher consumes it: `RequiredGas` and
`MutatesStorage` are pure functions of the input, and `Run` is abstracted
by the trace of StateDB calls it attempts together with its output bytes
and optional error. -/
structure Precompile where
  requiredGas : List Nat → Nat
  mutatesStorage : List Nat → Bool
  run : List Nat → List DBCall × (List Nat × Option String)

/-- Outcome of `RunPrecompile`: a successful run with remaining gas, one of
the recoverable errors (precompile-returned, out-of-gas, read-only
violation), or a fatal hard stop (Go panic). -/
inductive RunResult where
  | success (output : List Nat) (gasLeft : Nat) (st : StateDBState)
  | runError (e : String) (gasLeft : Nat) (st : StateDBState)
  | outOfGas
  | writeProtection
  | fatal

/-- Modelled from the spec: the dispatcher `RunPrecompile` (spec
section 4.6).  Gas is checked first (out-of-gas, no call made), then
read-only mode against `MutatesStorage` (read-only violation), then `Run`
executes against a StateDB that is wrapped in `ReadOnlyStateDB` whenever
the context is read-only or the precompile declared `MutatesStorage` false
(steps 5 and 7: inconsistent-mutation detection relies on the read-only
wrapper, and a wrapper violation surfaces as a fatal hard stop). -/
def RunPrecompile (pc : Precompile) (input : List Nat) (suppliedGas : Nat)
    (readOnly : Bool) (st : StateDBState) : RunResult :=
  let required := pc.requiredGas input
  if suppliedGas < required then RunResult.outOfGas
  else if readOnly && pc.mutatesStorage input then RunResult.writeProtection
  else
    let gasLeft := suppliedGas - required
    let w := if readOnly || !pc.mutatesStorage input then Wrapper.readOnly
             else Wrapper.plain
    let r := pc.run input
    match execCalls w st r.1 with
    | Except.error _ => RunResult.fatal
    | Except.ok st2 =>
      match r.2.2 with
      | some e => RunResult.runError e gasLeft st2
      | none => RunResult.success r.2.1 gasLeft st2

/-! ## Environment error latching (translated from `src/unnamed/part_001`)

`Env.setError` records an error only when none is recorded yet and
`Env.Error` returns the recorded error.  `execute` is abstracted by the
sequence of errors the executed operations produce (`none` for a
successful operation): every failing operation routes its error through
`setError`. -/

/-- The error-latching slice of `Env`. -/
structure EnvErrState where
  envErr : Option String
deriving DecidableEq, Repr

/-- `Env.setError`: keep the first recorded error. -/
def envSetError (st : EnvErrState) (e : String) : EnvErrState :=
  match st.envErr with
  | none => { envErr := some e }
  | some e0 => { envErr := some e0 }

/-- The error effect of one `execute` call whose operation produced the
given optional error. -/
def envStep (st : EnvErrState) (r : Option String) : EnvErrState :=
  match r with
  | some e => envSetError st e
  | none => st

/-- The error effect of a sequence of executed operations. -/
def envRun (st : EnvErrState) (rs : List (Option String)) : EnvErrState :=
  rs.foldl envStep st

/-- `Env.Error`. -/
def envError (st : EnvErrState) : Option String := st.envErr

/-- The first error produced by a sequence of operation outcomes. -/
def firstErr (rs : List (Option String)) : Option String :=
  (rs.filterMap id).head?

/-! ## Guest-side WASM exports (translated from `src/unnamed/part_004`)

The guest exports `concrete_Finalise` and `concrete_Commit` build a
commit-safe state API, invoke the wrapped precompile's `Finalise` /
`Commit`, and return a pointer.  In the source the error returned by the
precompile is discarded and `bridge.NullPointer` is returned on every
path. -/

/-- `bridge.NullPointer` as a packed u64. -/
def nullPointer : Nat := 0

/-- Guest export `concrete_Finalise` (`finalise` in `src/unnamed/part_004`):
runs the precompile's `Finalise` — abstracted by its optional error and
state effect — and returns `NullPointer` unconditionally, discarding the
error. -/
def guestFinalise (pcFinalise : StateDBState → Option String × StateDBState)
    (st : StateDBState) : Nat × StateDBState :=
  let r := pcFinalise st
  (nullPointer, r.2)

/-- Guest export `concrete_Commit` (`commit` in `src/unnamed/part_004`):
same shape as `guestFinalise`, also discarding the error. -/
def guestCommit (pcCommit : StateDBState → Option String × StateDBState)
    (st : StateDBState) : Nat × StateDBState :=
  let r := pcCommit st
  (nullPointer, r.2)

/-! ## Concrete instances used to evaluate the theorems -/

/-- `pc` with its `Run` behaviour replaced (used to state that a dispatcher
outcome does not depend on `Run`). -/
def withRun (pc : Precompile)
    (f : List Nat → List DBCall × (List Nat × Option String)) : Precompile :=
  ⟨pc.requiredGas, pc.mutatesStorage, f⟩

/-- The test precompile of `TestRunPrecompile` with `REQUIRED_GAS = 10`,
`MUTATES_STORAGE = true`: `Run` writes one persistent slot. -/
def pcGas : Precompile :=
  ⟨fun _ => 10, fun _ => true, fun _ => ([DBCall.setPersistentState 1 1 1], ([], none))⟩

/-- The test precompile with `MUTATES_STORAGE = false` while `Run` still
writes a persistent slot (the inconsistent declaration of the last phase of
`TestRunPrecompile`). -/
def pcMutLiar : Precompile :=
  ⟨fun _ => 10, fun _ => false, fun _ => ([DBCall.setPersistentState 1 1 1], ([], none))⟩

/-- A truthful non-mutating precompile: declares `MutatesStorage = false`
and only reads. -/
def pcQuiet : Precompile :=
  ⟨fun _ => 10, fun _ => false, fun _ => ([DBCall.getPersistentState 1 1], ([], none))⟩

/-- The all-zero slot map a fresh address's storage reads as. -/
def zeroSt : Nat → Nat := fun _ => 0

/-- Collision-freeness and size facts about the Keccak model that the
add-only set invariants rely on, relative to a universe `U` of values and a
bound `N` on the number of operations: histories that stay within `U` and
`N` touch only slots these facts keep apart (with real Keccak-256 each fact
is the absence of a hash collision among finitely many derived slots, the
spec's standing assumption). -/
structure SetModelOk (K : KeccakModel) (id : Nat) (U : List Nat) (N : Nat) : Prop where
  small : N < 2 ^ 63
  wrap : K.k1 (setArrayId K id) + N < HashMod
  elem_ne_len : ∀ i, i < N → K.k1 (setArrayId K id) + i ≠ setArrayId K id
  map_ne_len : ∀ v, v ∈ U → mapKey K (setMapId K id) v ≠ setArrayId K id
  map_ne_elem : ∀ v, v ∈ U → ∀ i, i < N →
    mapKey K (setMapId K id) v ≠ K.k1 (setArrayId K id) + i
  map_inj : ∀ v, v ∈ U → ∀ w, w ∈ U → v ≠ w →
    mapKey K (setMapId K id) v ≠ mapKey K (setMapId K id) w

/-- The slot-level invariant of a set built from the empty store by `Add`
operations over values of `U`: the abstract member list `mem` (distinct, in
insertion order) is reflected in the length slot, the element slots and the
index-map entries, every other slot is still zero. -/
structure SetInv (K : KeccakModel) (id : Nat) (U : List Nat) (N : Nat)
    (st : Nat → Nat) (mem : List Nat) : Prop where
  sub : ∀ v, v ∈ mem → v ∈ U
  nodup : mem.Nodup
  len_le : mem.length ≤ N
  len_eq : st (setArrayId K id) = mem.length
  elem_eq : ∀ i (h : i < mem.length),
    st (K.k1 (setArrayId K id) + i) = mem.get ⟨i, h⟩
  map_idx : ∀ i (h : i < mem.length),
    st (mapKey K (setMapId K id) (mem.get ⟨i, h⟩)) = i
  map_non : ∀ v, v ∈ U → v ∉ mem → st (mapKey K (setMapId K id) v) = 0
  frame : ∀ s, s ≠ setArrayId K id →
    (∀ i, i < N → s ≠ K.k1 (setArrayId K id) + i) →
    (∀ w, w ∈ mem → s ≠ mapKey K (setMapId K id) w) → st s = 0

/-! ## Helper lemmas -/

theorem upd_self (f : Nat → Nat) (k v : Nat) : upd f k v k = v := by
  simp [upd]

theorem upd_other (f : Nat → Nat) (k v x : Nat) (h : x ≠ k) : upd f k v x = f x := by
  simp [upd, h]

theorem int64OfNat_small (n : Nat) (h : n < 2 ^ 63) : int64OfNat n = (n : Nat) := by
  have h64 : n < 2 ^ 64 := lt_trans h (by norm_num)
  unfold int64OfNat
  simp only [Nat.mod_eq_of_lt h64]
  simp [h]
  omega

theorem bigToHash_ofNat (n : Nat) (h : n < HashMod) : bigToHash (n : Int) = n := by
  simp [bigToHash, Int.natAbs_ofNat, Nat.mod_eq_of_lt h]

/-! ## C10: environment error latching -/

/-- **C10.** For every `Env` and every sequence of executed operations, the
recorded error after the sequence is the previously recorded error if there
was one, and otherwise the first error produced by the sequence: later
errors never replace the first (`Env.setError` only assigns when `envErr`
is nil, `Env.Error` returns it). -/
theorem env_error_latches (st : EnvErrState) (rs : List (Option String)) :
    envError (envRun st rs) =
      (match envError st with
       | some e => some e
       | none => firstErr rs) := by
  induction rs generalizing st with
  | nil =>
    cases h : st.envErr <;> simp [envRun, envError, firstErr, h]
  | cons r rest ih =>
    have hrun : envRun st (r :: rest) = envRun (envStep st r) rest := by
      simp [envRun]
    rw [hrun, ih]
    cases r with
    | none =>
      cases h : st.envErr <;> simp [envStep, envError, firstErr, h]
    | some e =>
      cases h : st.envErr <;>
        simp [envStep, envSetError, envError, firstErr, h]

/-! ## C3: guest-side Finalise/Commit error propagation -/

/-- **C3.** The claim requires the guest exports `concrete_Finalise` and
`concrete_Commit` to return a pointer to the precompile's error encoded
via the return-with-error codec, returning `NullPointer` exactly when the
precompile succeeds.  The source (`finalise` / `commit` in
`src/unnamed/part_004`) discards the error returned by
`precompile.Finalise` / `precompile.Commit` and returns `NullPointer` on
every path: evaluated at a precompile whose Finalise and Commit fail with
the error "fail", both exports still return `NullPointer`, so the host-side
decoder (`call__Err`, which reads the returned pointer through
`GetReturnWithError`) observes no error. -/
theorem guest_finalise_commit_drop_error :
    (guestFinalise (fun st => (some "fail", st)) StateDBState.zero).1 = nullPointer ∧
    (guestCommit (fun st => (some "fail", st)) StateDBState.zero).1 = nullPointer :=
  ⟨rfl, rfl⟩

/-! ## C4 and C5: access wrappers -/

/-- **C4.** For `ReadOnlyStateDB` over any store state: every mutating call
(`SetPersistentState`, `SetEphemeralState`, `AddPersistentPreimage`,
`AddEphemeralPreimage`) raises a hard error, and every read method passes
through without a hard error, returning exactly what the wrapped store
returns (the unwrapped call, which never errors). -/
theorem readonly_statedb_spec (st : StateDBState) (c : DBCall) :
    callStateDB Wrapper.readOnly st c =
      (if c.isMutating then Except.error () else callStateDB Wrapper.plain st c) ∧
    callStateDB Wrapper.plain st c = Except.ok (applyCall st c) := by
  refine ⟨?_, ?_⟩
  · cases c <;> simp [callStateDB, blockedBy, DBCall.isMutating]
  · simp [callStateDB, blockedBy]

/-- **C5.** For `CommitSafeStateDB` over any store state:
`SetPersistentState` raises a hard error; `SetEphemeralState`,
`AddPersistentPreimage` and `AddEphemeralPreimage` succeed without a hard
error and their effects are visible to subsequent reads through the same
wrapper; every read method returns the same as through the unwrapped
store. -/
theorem commitsafe_statedb_spec (st : StateDBState) (a k v h : Nat) (p : List Nat) :
    callStateDB Wrapper.commitSafe st (DBCall.setPersistentState a k v) =
      Except.error () ∧
    callStateDB Wrapper.commitSafe st (DBCall.setEphemeralState a k v) =
      Except.ok (applyCall st (DBCall.setEphemeralState a k v)) ∧
    callStateDB Wrapper.commitSafe
        (applyCall st (DBCall.setEphemeralState a k v)).1
        (DBCall.getEphemeralState a k) =
      Except.ok ((applyCall st (DBCall.setEphemeralState a k v)).1, DBOut.hash v) ∧
    callStateDB Wrapper.commitSafe st (DBCall.addPersistentPreimage h p) =
      Except.ok (applyCall st (DBCall.addPersistentPreimage h p)) ∧
    callStateDB Wrapper.commitSafe
        (applyCall st (DBCall.addPersistentPreimage h p)).1
        (DBCall.getPersistentPreimage h) =
      Except.ok ((applyCall st (DBCall.addPersistentPreimage h p)).1, DBOut.bytes p) ∧
    callStateDB Wrapper.commitSafe st (DBCall.addEphemeralPreimage h p) =
      Except.ok (applyCall st (DBCall.addEphemeralPreimage h p)) ∧
    callStateDB Wrapper.commitSafe
        (applyCall st (DBCall.addEphemeralPreimage h p)).1
        (DBCall.getEphemeralPreimage h) =
      Except.ok ((applyCall st (DBCall.addEphemeralPreimage h p)).1, DBOut.bytes p) ∧
    callStateDB Wrapper.commitSafe st (DBCall.getPersistentState a k) =
      callStateDB Wrapper.plain st (DBCall.getPersistentState a k) ∧
    callStateDB Wrapper.commitSafe st (DBCall.getEphemeralState a k) =
      callStateDB Wrapper.plain st (DBCall.getEphemeralState a k) ∧
    callStateDB Wrapper.commitSafe st (DBCall.getPersistentPreimage h) =
      callStateDB Wrapper.plain st (DBCall.getPersistentPreimage h) ∧
    callStateDB Wrapper.commitSafe st (DBCall.getPersistentPreimageSize h) =
      callStateDB Wrapper.plain st (DBCall.getPersistentPreimageSize h) ∧
    callStateDB Wrapper.commitSafe st (DBCall.getEphemeralPreimage h) =
      callStateDB Wrapper.plain st (DBCall.getEphemeralPreimage h) ∧
    callStateDB Wrapper.commitSafe st (DBCall.getEphemeralPreimageSize h) =
      callStateDB Wrapper.plain st (DBCall.getEphemeralPreimageSize h) := by
  refine ⟨rfl, rfl, ?_, rfl, ?_, rfl, ?_, rfl, rfl, rfl, rfl, rfl, rfl⟩
  · simp [callStateDB, blockedBy, applyCall, upd2]
  · simp [callStateDB, blockedBy, applyCall]
  · simp [callStateDB, blockedBy, applyCall]

/-! ## C1, C2, C6: dispatcher -/

theorem isPersistentMutation_isMutating (c : DBCall)
    (h : c.isPersistentMutation = true) : c.isMutating = true := by
  cases c <;> simp_all [DBCall.isPersistentMutation, DBCall.isMutating]

theorem execCalls_readOnly_error (st : StateDBState) (calls : List DBCall)
    (h : calls.any DBCall.isMutating = true) :
    execCalls Wrapper.readOnly st calls = Except.error () := by
  induction calls generalizing st with
  | nil => simp at h
  | cons c rest ih =>
    by_cases hc : c.isMutating = true
    · simp [execCalls, callStateDB, blockedBy, hc]
    · have hrest : rest.any DBCall.isMutating = true := by
        simp [List.any_cons, hc] at h
        simpa using h
      have hblocked : blockedBy Wrapper.readOnly c = false := by
        simp [blockedBy]
        simpa using hc
      simp [execCalls, callStateDB, hblocked, ih _ hrest]

theorem execCalls_no_mutation_ok (w : Wrapper) (st : StateDBState)
    (calls : List DBCall) (h : calls.any DBCall.isMutating = false) :
    ∃ st', execCalls w st calls = Except.ok st' := by
  induction calls generalizing st with
  | nil => exact ⟨st, rfl⟩
  | cons c rest ih =>
    rw [List.any_cons, Bool.or_eq_false_iff] at h
    obtain ⟨hc, hrest⟩ := h
    have hblocked : blockedBy w c = false := by
      cases w with
      | plain => rfl
      | readOnly => simpa [blockedBy] using hc
      | commitSafe =>
        cases c <;> simp_all [blockedBy, DBCall.isMutating]
    obtain ⟨st', hst'⟩ := ih (applyCall st c).1 hrest
    refine ⟨st', ?_⟩
    simp [execCalls, callStateDB, hblocked]
    exact hst'

/-- **C1.** For every precompile, input, gas supply, read-only mode and
store state: when `suppliedGas < RequiredGas(input)` the dispatcher returns
the out-of-gas error whatever the precompile's `Run` behaviour is (so `Run`
is not invoked); and whenever the dispatcher returns successfully, the
remaining gas is exactly `suppliedGas - RequiredGas(input)`. -/
theorem runPrecompile_gas_accounting (pc : Precompile) (input : List Nat)
    (suppliedGas : Nat) (readOnly : Bool) (st : StateDBState) :
    (suppliedGas < pc.requiredGas input →
      ∀ f, RunPrecompile (withRun pc f) input suppliedGas readOnly st =
        RunResult.outOfGas) ∧
    (∀ out gl st2, RunPrecompile pc input suppliedGas readOnly st =
        RunResult.success out gl st2 → gl = suppliedGas - pc.requiredGas input) := by
  constructor
  · intro hlt f
    simp [RunPrecompile, withRun, hlt]
  · intro out gl st2 hrun
    simp only [RunPrecompile] at hrun
    split at hrun
    · exact absurd hrun (by simp)
    · split at hrun
      · exact absurd hrun (by simp)
      · split at hrun
        · exact absurd hrun (by simp)
        · split at hrun
          · exact absurd hrun (by simp)
          · rw [RunResult.success.injEq] at hrun
            exact hrun.2.1.symm

/-- Witness for `runPrecompile_gas_accounting`: `RequiredGas = 10`; with 5
gas supplied the dispatcher reports out-of-gas, and a successful run with
20 gas supplied leaves 10. -/
theorem runPrecompile_gas_accounting_witness :
    RunPrecompile (withRun pcGas pcGas.run) [] 5 false StateDBState.zero =
      RunResult.outOfGas ∧
    (10 : Nat) = 20 - pcGas.requiredGas [] :=
  ⟨(runPrecompile_gas_accounting pcGas [] 5 false StateDBState.zero).1
      (by decide) pcGas.run,
   (runPrecompile_gas_accounting pcGas [] 20 false StateDBState.zero).2
      [] 10 (applyCall StateDBState.zero (DBCall.setPersistentState 1 1 1)).1 rfl⟩

/-- **C2.** For every precompile, input and store state, with enough gas
supplied: if the context is read-only and `MutatesStorage(input)` is true,
the dispatcher returns the read-only violation error — a recoverable error,
not a hard stop — whatever the precompile's `Run` behaviour is (so `Run` is
not invoked). -/
theorem runPrecompile_readonly_violation (pc : Precompile) (input : List Nat)
    (suppliedGas : Nat) (st : StateDBState)
    (hgas : pc.requiredGas input ≤ suppliedGas)
    (hmut : pc.mutatesStorage input = true) :
    RunPrecompile pc input suppliedGas true st = RunResult.writeProtection ∧
    RunPrecompile pc input suppliedGas true st ≠ RunResult.fatal ∧
    ∀ f, RunPrecompile (withRun pc f) input suppliedGas true st =
      RunResult.writeProtection := by
  have hlt : ¬suppliedGas < pc.requiredGas input := not_lt.mpr hgas
  refine ⟨?_, ?_, ?_⟩
  · simp [RunPrecompile, hlt, hmut]
  · simp [RunPrecompile, hlt, hmut]
  · intro f
    simp [RunPrecompile, withRun, hlt, hmut]

/-- Witness for `runPrecompile_readonly_violation`: the test precompile
(`RequiredGas = 10`, `MutatesStorage = true`) run read-only with 10 gas
yields the recoverable read-only violation. -/
theorem runPrecompile_readonly_violation_witness :
    RunPrecompile pcGas [0] 10 true StateDBState.zero = RunResult.writeProtection :=
  (runPrecompile_readonly_violation pcGas [0] 10 StateDBState.zero
    (by decide) (by decide)).1

/-- **C6.** For every precompile, input, gas supply, read-only mode and
store state, with enough gas supplied and `MutatesStorage(input) = false`:
if `Run` attempts a persistent-state mutation, the dispatcher surfaces the
fatal hard stop (the read-only wrapper installed because
`MutatesStorage(input)` is false turns the attempted write into a panic),
not a recoverable error; and if the precompile's declaration is truthful —
its `Run` attempts no mutating StateDB call — this fatal branch is
unreachable. -/
theorem runPrecompile_consistency_fatal (pc : Precompile) (input : List Nat)
    (suppliedGas : Nat) (readOnly : Bool) (st : StateDBState)
    (hgas : pc.requiredGas input ≤ suppliedGas)
    (hmut : pc.mutatesStorage input = false) :
    ((pc.run input).1.any DBCall.isPersistentMutation = true →
      RunPrecompile pc input suppliedGas readOnly st = RunResult.fatal) ∧
    ((pc.run input).1.any DBCall.isMutating = false →
      RunPrecompile pc input suppliedGas readOnly st ≠ RunResult.fatal) := by
  have hlt : ¬suppliedGas < pc.requiredGas input := not_lt.mpr hgas
  constructor
  · intro hpers
    have hany : (pc.run input).1.any DBCall.isMutating = true := by
      rw [List.any_eq_true] at hpers ⊢
      obtain ⟨c, hcmem, hcp⟩ := hpers
      exact ⟨c, hcmem, isPersistentMutation_isMutating c hcp⟩
    have herr := execCalls_readOnly_error st (pc.run input).1 hany
    simp [RunPrecompile, hlt, hmut, herr]
  · intro hnone
    obtain ⟨st', hok⟩ :=
      execCalls_no_mutation_ok Wrapper.readOnly st (pc.run input).1 hnone
    simp [RunPrecompile, hlt, hmut, hok]
    rcases (pc.run input).2.2 with _ | e <;> simp

/-- Witness for `runPrecompile_consistency_fatal`: the inconsistent test
precompile (declares `MutatesStorage = false`, `Run` writes a persistent
slot) hits the fatal hard stop, and the truthful read-only precompile does
not. -/
theorem runPrecompile_consistency_fatal_witness :
    RunPrecompile pcMutLiar [0] 10 true StateDBState.zero = RunResult.fatal ∧
    RunPrecompile pcQuiet [0] 10 false StateDBState.zero ≠ RunResult.fatal :=
  ⟨(runPrecompile_consistency_fatal pcMutLiar [0] 10 true StateDBState.zero
      (by decide) (by decide)).1 (by decide),
   (runPrecompile_consistency_fatal pcQuiet [0] 10 false StateDBState.zero
      (by decide) (by decide)).2 (by decide)⟩

/-! ## C7, C8, C9: datastore counterexamples -/

/-- **C8 counterexample.** The claim says `Set(i,v)` is a hard error for
*any* index outside `[0, Length)`.  The source only checks the upper bound
(`index >= a.Length()`), so on a fresh array of length 0 the out-of-range
call `Set(-1, v)` does not panic: it silently writes the slot just below
the element region, and the out-of-range read `Get(-1)` then returns that
value instead of the zero hash. -/
theorem array_negative_index_not_checked :
    (match arraySet Kc 5 zeroSt (-1) 7 with
     | Except.ok st => arrayGet Kc 5 st (-1)
     | Except.error _ => 0) = 7 := by decide

/-- **C7 counterexample.** Starting from an empty set (id 3, zero store),
run `Add 11; Add 12; Remove 11; Add 13; Remove 12`.  Every operation
succeeds (no panic), yet afterwards `Has 12 = true` although 12 was added
and subsequently removed — refuting "`Has(v)` is true iff `v` has been
`Add`-ed and not subsequently `Remove`-d" (and with it the `Size` clause:
the set reports size 1 while both 12 and 13 report present).  The cause:
`Remove 11` swap-pops without updating the displaced element 12's
index-mapping entry, so `Remove 12` reads the stale index 1 and pops 13
instead of 12. -/
theorem set_remove_stale_index :
    (match runSetOps Kc 3 zeroSt
        [SetOp.add 11, SetOp.add 12, SetOp.remove 11,
         SetOp.add 13, SetOp.remove 12] with
     | Except.ok st => setHas Kc 3 st 12
     | Except.error _ => false) = true := by decide

/-- **C9 counterexample.** The claim says `Add(v)` on a set holding `n`
values records `v → Hash(n+1)` in the index mapping, zero meaning absent.
The source stores `Hash(index)` — the 0-based index `n` — not `n+1`: adding
a first value (n = 0) to an empty set stores the zero hash, not `Hash(1)`,
in that value's mapping entry. -/
theorem set_add_stores_index_not_succ :
    (match setAdd Kc 3 zeroSt 7 with
     | Except.ok st => st (mapKey Kc (setMapId Kc 3) 7)
     | Except.error _ => 99) = 0 ∧
    (match setAdd Kc 3 zeroSt 7 with
     | Except.ok st => st (mapKey Kc (setMapId Kc 3) 7)
     | Except.error _ => 99) ≠ 1 := by
  refine ⟨by decide, by decide⟩

/-! ## C8 and C9: amended datastore theorems -/

theorem bigToHash_nonneg (x : Int) (h0 : 0 ≤ x) (hlt : x < (HashMod : Int)) :
    bigToHash x = x.toNat := by
  unfold bigToHash
  have h1 : x.natAbs = x.toNat := by omega
  rw [h1]
  apply Nat.mod_eq_of_lt
  omega

theorem length_roundtrip (x : Int) (h0 : 0 ≤ x) (h63 : x < 2 ^ 63) :
    int64OfNat (bigToHash x) = x := by
  have hm : x < (HashMod : Int) := by
    calc x < 2 ^ 63 := h63
    _ ≤ (HashMod : Int) := by norm_num [HashMod]
  rw [bigToHash_nonneg x h0 hm]
  have h2 : x.toNat < 2 ^ 63 := by omega
  rw [int64OfNat_small _ h2]
  omega

theorem arrayKey_eq (K : KeccakModel) (id : Nat) (i : Int) (h0 : 0 ≤ i)
    (hw : (K.k1 id : Int) + i < (HashMod : Int)) :
    arrayKey K id i = K.k1 id + i.toNat := by
  unfold arrayKey
  rw [bigToHash_nonneg _ (by omega) hw]
  omega

/-- **C8 (amended).** For every array state with a sane stored length `L`
(non-negative, below 2^63, element slots not colliding with the length
slot): `Get(i)` returns the zero hash for every `i ≥ L`; `Set(i, v)` is a
hard error for every `i ≥ L` (negative indices are not checked, see the
counterexample); `Push(v)` succeeds, the length grows by exactly 1 and
`Get(Length - 1)` returns `v`; `Pop()` on length 0 returns the zero hash
and leaves the state unchanged, and on a positive length returns the former
last element (`Get(L-1)`) and stores length `L - 1`. -/
theorem array_ops_amended (K : KeccakModel) (id : Nat) (st : Nat → Nat) (v : Nat)
    (L : Int) (hL : arrayGetLength st id = L) (hL0 : 0 ≤ L) (hLN : L + 1 < 2 ^ 63)
    (hwrap : (K.k1 id : Int) + L < (HashMod : Int))
    (hid : ∀ i : Nat, i ≤ L.toNat → K.k1 id + i ≠ id) :
    (∀ i : Int, L ≤ i → arrayGet K id st i = 0) ∧
    (∀ i : Int, L ≤ i → ∀ w, arraySet K id st i w = Except.error ()) ∧
    (∃ st', arrayPush K id st v = Except.ok st' ∧
      arrayGetLength st' id = L + 1 ∧ arrayGet K id st' L = v) ∧
    (L = 0 → arrayPop K id st = (0, st)) ∧
    (0 < L →
      arrayPop K id st = (arrayGet K id st (L - 1), arraySetLength st id (L - 1)) ∧
      arrayGetLength (arraySetLength st id (L - 1)) id = L - 1) := by
  have hkey : arrayKey K id L = K.k1 id + L.toNat := arrayKey_eq K id L hL0 hwrap
  have hkeyne : arrayKey K id L ≠ id := by
    rw [hkey]; exact hid L.toNat (le_refl _)
  refine ⟨?_, ?_, ?_, ?_, ?_⟩
  · intro i hi
    unfold arrayGet
    rw [hL, if_pos hi]
  · intro i hi w
    unfold arraySet
    rw [hL, if_pos hi]
  · -- Push
    have hlen1 : arrayGetLength (upd st id (bigToHash (L + 1))) id = L + 1 := by
      unfold arrayGetLength
      rw [upd_self]
      exact length_roundtrip (L + 1) (by omega) hLN
    simp only [arrayPush, arraySetLength, arraySet, hL, hlen1]
    rw [if_neg (by omega)]
    refine ⟨_, rfl, ?_, ?_⟩
    · unfold arrayGetLength
      rw [upd_other _ _ _ _ (Ne.symm hkeyne), upd_self]
      exact length_roundtrip (L + 1) (by omega) hLN
    · unfold arrayGet arrayGetLength
      rw [upd_other _ _ _ _ (Ne.symm hkeyne), upd_self,
        length_roundtrip (L + 1) (by omega) hLN, if_neg (by omega), upd_self]
  · intro h0
    unfold arrayPop
    rw [hL, if_pos h0]
  · intro hpos
    constructor
    · unfold arrayPop
      rw [hL, if_neg (by omega)]
    · unfold arraySetLength arrayGetLength
      rw [upd_self]
      exact length_roundtrip (L - 1) (by omega) (by omega)

/-- Witness for `array_ops_amended`: the array at id 5 whose length slot
holds 2; pushing 7 gives length 3 with `Get(2) = 7`. -/
theorem array_ops_amended_witness :
    ∃ st', arrayPush Kc 5 (upd zeroSt 5 2) 7 = Except.ok st' ∧
      arrayGetLength st' 5 = 2 + 1 ∧ arrayGet Kc 5 st' 2 = 7 :=
  (array_ops_amended Kc 5 (upd zeroSt 5 2) 7 2 (by decide) (by decide) (by decide)
    (by decide) (by decide)).2.2.1

/-- **C9 (amended).** For every Set(id) state not containing `v` whose
value array holds `n` values (sane length, mapping slot distinct from the
length and new-element slots): `Add(v)` succeeds and records in the set's
index Mapping — whose id is `Keccak256(id)+1` by definition of
`setMapId` — the entry mapping `v` to the Hash encoding of `n`, the
0-based index (a stored zero is therefore ambiguous between absent and
index 0; `set.Has` disambiguates it by comparing against element 0). -/
theorem setAdd_records_index (K : KeccakModel) (id : Nat) (st : Nat → Nat)
    (v : Nat) (n : Int)
    (hhas : setHas K id st v = false)
    (hn : arrayGetLength st (setArrayId K id) = n) (hn0 : 0 ≤ n)
    (hnN : n + 1 < 2 ^ 63)
    (hMA : mapKey K (setMapId K id) v ≠ setArrayId K id)
    (hME : mapKey K (setMapId K id) v ≠ arrayKey K (setArrayId K id) n) :
    ∃ st', setAdd K id st v = Except.ok st' ∧
      st' (mapKey K (setMapId K id) v) = n.toNat ∧
      setMapId K id = (K.k1 id + 1) % HashMod := by
  have hst1 : arrayGetLength (upd st (mapKey K (setMapId K id) v) (bigToHash n))
      (setArrayId K id) = n := by
    unfold arrayGetLength
    rw [upd_other _ _ _ _ (Ne.symm hMA)]
    unfold arrayGetLength at hn
    exact hn
  have hlen1 : arrayGetLength
      (upd (upd st (mapKey K (setMapId K id) v) (bigToHash n))
        (setArrayId K id) (bigToHash (n + 1))) (setArrayId K id) = n + 1 := by
    unfold arrayGetLength
    rw [upd_self]
    exact length_roundtrip (n + 1) (by omega) hnN
  simp only [setAdd, hhas, Bool.false_eq_true, if_false, hn, mapSet, arrayPush,
    arraySetLength, arraySet, hst1, hlen1]
  rw [if_neg (by omega)]
  refine ⟨_, rfl, ?_, rfl⟩
  rw [upd_other _ _ _ _ hME, upd_other _ _ _ _ (Ne.symm (Ne.symm hMA)), upd_self]
  exact bigToHash_nonneg n hn0 (by norm_num [HashMod]; omega)

/-- Witness for `setAdd_records_index`: adding 7 to the empty set at id 3
stores the Hash encoding of 0 (the 0-based index) in 7's mapping entry. -/
theorem setAdd_records_index_witness :
    ∃ st', setAdd Kc 3 zeroSt 7 = Except.ok st' ∧
      st' (mapKey Kc (setMapId Kc 3) 7) = (0 : Int).toNat ∧
      setMapId Kc 3 = (Kc.k1 3 + 1) % HashMod :=
  setAdd_records_index Kc 3 zeroSt 7 0 (by decide) (by decide) (by decide)
    (by decide) (by decide) (by decide)

/-! ## C7: add-only set invariants -/

theorem get_append_last (l : List Nat) (v : Nat) (h : l.length < (l ++ [v]).length) :
    (l ++ [v]).get ⟨l.length, h⟩ = v := by
  induction l with
  | nil => rfl
  | cons a t ih => exact ih (by simp)

theorem get_append_first (l : List Nat) (v : Nat) (i : Nat) (h : i < l.length)
    (h2 : i < (l ++ [v]).length) :
    (l ++ [v]).get ⟨i, h2⟩ = l.get ⟨i, h⟩ := by
  induction l generalizing i with
  | nil => simp at h
  | cons a t ih =>
    cases i with
    | zero => rfl
    | succ j => exact ih j (by simpa using h) (by simpa using h2)

theorem mem_foldAdd (vs : List Nat) : ∀ (mem : List Nat) (v : Nat),
    v ∈ foldAdd mem vs ↔ v ∈ mem ∨ v ∈ vs := by
  induction vs with
  | nil => simp [foldAdd]
  | cons a rest ih =>
    intro mem v
    have hstep : foldAdd mem (a :: rest) =
        foldAdd (if a ∈ mem then mem else mem ++ [a]) rest := by
      simp [foldAdd]
    rw [hstep]
    by_cases ha : a ∈ mem
    · rw [if_pos ha, ih]
      constructor
      · rintro (hv | hv)
        · exact Or.inl hv
        · exact Or.inr (List.mem_cons_of_mem a hv)
      · rintro (hv | hv)
        · exact Or.inl hv
        · rcases List.mem_cons.mp hv with rfl | hv
          · exact Or.inl ha
          · exact Or.inr hv
    · rw [if_neg ha, ih]
      simp [List.mem_append, List.mem_cons, or_assoc]

theorem setSize_of_inv (K : KeccakModel) (id : Nat) (U : List Nat) (N : Nat)
    (st : Nat → Nat) (mem : List Nat) (hK : SetModelOk K id U N)
    (inv : SetInv K id U N st mem) :
    setSize K id st = (mem.length : Int) := by
  unfold setSize arrayGetLength
  rw [inv.len_eq]
  exact int64OfNat_small _ (lt_of_le_of_lt inv.len_le hK.small)

theorem arrayGet_of_inv (K : KeccakModel) (id : Nat) (U : List Nat) (N : Nat)
    (st : Nat → Nat) (mem : List Nat) (hK : SetModelOk K id U N)
    (inv : SetInv K id U N st mem) (i : Nat) (h : i < mem.length) :
    arrayGet K (setArrayId K id) st (i : Int) = mem.get ⟨i, h⟩ := by
  unfold arrayGet arrayGetLength
  rw [inv.len_eq, int64OfNat_small _ (lt_of_le_of_lt inv.len_le hK.small),
    if_neg (by exact_mod_cast not_le.mpr h)]
  have hw : (K.k1 (setArrayId K id) : Int) + (i : Int) < (HashMod : Int) := by
    have h1 : i < N := lt_of_lt_of_le h inv.len_le
    have := hK.wrap
    omega
  rw [arrayKey_eq K (setArrayId K id) (i : Int) (by omega) hw]
  have h2 : ((i : Int)).toNat = i := by omega
  rw [h2]
  exact inv.elem_eq i h

theorem setHas_false_aux (K : KeccakModel) (id : Nat) (U : List Nat) (N : Nat)
    (st : Nat → Nat) (mem : List Nat) (hK : SetModelOk K id U N)
    (inv : SetInv K id U N st mem) (v : Nat)
    (hmv : st (mapKey K (setMapId K id) v) = 0)
    (hne0 : ∀ (h : 0 < mem.length), v ≠ mem.get ⟨0, h⟩) :
    setHas K id st v = false := by
  unfold setHas
  rw [setSize_of_inv K id U N st mem hK inv]
  cases hm : mem with
  | nil => simp [hm]
  | cons m0 t =>
    rw [if_neg (by simp [hm]; omega)]
    simp only [mapGet, hmv, if_true]
    have h0 : 0 < mem.length := by simp [hm]
    have hg := arrayGet_of_inv K id U N st mem hK inv 0 h0
    rw [Nat.cast_zero] at hg
    rw [hg]
    exact decide_eq_false (hne0 h0)

theorem setHas_of_inv (K : KeccakModel) (id : Nat) (U : List Nat) (N : Nat)
    (st : Nat → Nat) (mem : List Nat) (hK : SetModelOk K id U N)
    (inv : SetInv K id U N st mem) (v : Nat) (hv : v ∈ U) :
    setHas K id st v = decide (v ∈ mem) := by
  by_cases hmem : v ∈ mem
  · obtain ⟨⟨iv, hiv⟩, hgv⟩ := List.mem_iff_get.mp hmem
    have hmap : st (mapKey K (setMapId K id) v) = iv := by
      have h := inv.map_idx iv hiv
      rwa [hgv] at h
    have hpos : mem.length ≠ 0 := by omega
    unfold setHas
    rw [setSize_of_inv K id U N st mem hK inv,
      if_neg (by exact_mod_cast hpos)]
    simp only [mapGet, hmap]
    by_cases hiv0 : iv = 0
    · subst hiv0
      rw [if_pos rfl]
      have hg := arrayGet_of_inv K id U N st mem hK inv 0 hiv
      rw [Nat.cast_zero] at hg
      rw [hg, hgv]
      simp [hmem]
    · rw [if_neg hiv0]
      simp [hmem]
  · have hmv : st (mapKey K (setMapId K id) v) = 0 := inv.map_non v hv hmem
    have hne0 : ∀ (h : 0 < mem.length), v ≠ mem.get ⟨0, h⟩ := by
      intro h0 heq
      exact hmem (heq ▸ List.get_mem mem 0 h0)
    rw [setHas_false_aux K id U N st mem hK inv v hmv hne0]
    simp [hmem]

theorem setAdd_of_mem (K : KeccakModel) (id : Nat) (U : List Nat) (N : Nat)
    (st : Nat → Nat) (mem : List Nat) (hK : SetModelOk K id U N)
    (inv : SetInv K id U N st mem) (v : Nat) (hv : v ∈ U) (hmem : v ∈ mem) :
    setAdd K id st v = Except.ok st := by
  unfold setAdd
  rw [setHas_of_inv K id U N st mem hK inv v hv]
  simp [hmem]

theorem setAdd_step (K : KeccakModel) (id : Nat) (U : List Nat) (N : Nat)
    (st : Nat → Nat) (mem : List Nat) (hK : SetModelOk K id U N)
    (inv : SetInv K id U N st mem) (v : Nat) (hv : v ∈ U) (hnew : v ∉ mem)
    (hroom : mem.length < N) :
    ∃ st', setAdd K id st v = Except.ok st' ∧ SetInv K id U N st' (mem ++ [v]) := by
  have hN63 : N < 2 ^ 63 := hK.small
  have hL63 : mem.length < 2 ^ 63 := lt_trans hroom hK.small
  have hLmod : mem.length < HashMod := lt_trans hL63 (by norm_num [HashMod])
  have hL1mod : mem.length + 1 < HashMod := by
    have : N < HashMod := lt_trans hK.small (by norm_num [HashMod])
    omega
  have hhas : setHas K id st v = false := by
    rw [setHas_of_inv K id U N st mem hK inv v hv]
    simp [hnew]
  have hlen : arrayGetLength st (setArrayId K id) = (mem.length : Int) := by
    unfold arrayGetLength
    rw [inv.len_eq]
    exact int64OfNat_small _ hL63
  have hb1 : bigToHash ((mem.length : Nat) : Int) = mem.length :=
    bigToHash_ofNat mem.length hLmod
  have hb2 : bigToHash (((mem.length : Nat) : Int) + 1) = mem.length + 1 := by
    rw [show (((mem.length : Nat) : Int) + 1) = (((mem.length + 1 : Nat)) : Int) by
      push_cast; ring]
    exact bigToHash_ofNat (mem.length + 1) hL1mod
  have hAne : setArrayId K id ≠ mapKey K (setMapId K id) v :=
    Ne.symm (hK.map_ne_len v hv)
  have hst1A : upd st (mapKey K (setMapId K id) v) mem.length (setArrayId K id) =
      mem.length := by
    rw [upd_other _ _ _ _ hAne]
    exact inv.len_eq
  have hwrapL : (K.k1 (setArrayId K id) : Int) + (mem.length : Int) <
      (HashMod : Int) := by
    have := hK.wrap
    omega
  have hak : arrayKey K (setArrayId K id) ((mem.length : Nat) : Int) =
      K.k1 (setArrayId K id) + mem.length := by
    rw [arrayKey_eq K (setArrayId K id) _ (by omega) hwrapL]
    omega
  -- evaluate setAdd
  have heq : setAdd K id st v = Except.ok
      (upd (upd (upd st (mapKey K (setMapId K id) v) mem.length)
        (setArrayId K id) (mem.length + 1))
        (K.k1 (setArrayId K id) + mem.length) v) := by
    have hlen2 : arrayGetLength
        (upd (upd st (mapKey K (setMapId K id) v) mem.length)
          (setArrayId K id) (mem.length + 1)) (setArrayId K id) =
        ((mem.length + 1 : Nat) : Int) := by
      unfold arrayGetLength
      rw [upd_self]
      exact int64OfNat_small _ (by omega)
    simp only [setAdd, hhas, Bool.false_eq_true, if_false, hlen, mapSet, hb1,
      arrayPush, arraySetLength]
    have hlen1 : arrayGetLength (upd st (mapKey K (setMapId K id) v) mem.length)
        (setArrayId K id) = (mem.length : Int) := by
      unfold arrayGetLength
      rw [hst1A]
      exact int64OfNat_small _ hL63
    rw [hlen1]
    simp only [arraySet, hb2, hlen2, hak]
    rw [if_neg (by push_cast; omega)]
  refine ⟨_, heq, ?_⟩
  -- abbreviations for the new state evaluation
  have h_stA : (upd (upd (upd st (mapKey K (setMapId K id) v) mem.length)
      (setArrayId K id) (mem.length + 1))
      (K.k1 (setArrayId K id) + mem.length) v) (setArrayId K id) =
      mem.length + 1 := by
    rw [upd_other _ _ _ _ (Ne.symm (hK.elem_ne_len mem.length hroom)), upd_self]
  have h_stBi : ∀ i, i < mem.length →
      (upd (upd (upd st (mapKey K (setMapId K id) v) mem.length)
        (setArrayId K id) (mem.length + 1))
        (K.k1 (setArrayId K id) + mem.length) v)
        (K.k1 (setArrayId K id) + i) = st (K.k1 (setArrayId K id) + i) := by
    intro i hi
    rw [upd_other _ _ _ _ (by omega),
      upd_other _ _ _ _ (hK.elem_ne_len i (lt_trans hi hroom)),
      upd_other _ _ _ _ (Ne.symm (hK.map_ne_elem v hv i (lt_trans hi hroom)))]
  have h_stBL : (upd (upd (upd st (mapKey K (setMapId K id) v) mem.length)
      (setArrayId K id) (mem.length + 1))
      (K.k1 (setArrayId K id) + mem.length) v)
      (K.k1 (setArrayId K id) + mem.length) = v := upd_self _ _ _
  have h_stMv : (upd (upd (upd st (mapKey K (setMapId K id) v) mem.length)
      (setArrayId K id) (mem.length + 1))
      (K.k1 (setArrayId K id) + mem.length) v)
      (mapKey K (setMapId K id) v) = mem.length := by
    rw [upd_other _ _ _ _ (hK.map_ne_elem v hv mem.length hroom),
      upd_other _ _ _ _ (hK.map_ne_len v hv), upd_self]
  have h_stMw : ∀ w, w ∈ U → w ≠ v →
      (upd (upd (upd st (mapKey K (setMapId K id) v) mem.length)
        (setArrayId K id) (mem.length + 1))
        (K.k1 (setArrayId K id) + mem.length) v)
        (mapKey K (setMapId K id) w) = st (mapKey K (setMapId K id) w) := by
    intro w hw hwv
    rw [upd_other _ _ _ _ (hK.map_ne_elem w hw mem.length hroom),
      upd_other _ _ _ _ (hK.map_ne_len w hw),
      upd_other _ _ _ _ (hK.map_inj w hw v hv hwv)]
  refine ⟨?_, ?_, ?_, ?_, ?_, ?_, ?_, ?_⟩
  · intro w hw
    rcases List.mem_append.mp hw with hw | hw
    · exact inv.sub w hw
    · rw [List.mem_singleton.mp hw]; exact hv
  · rw [List.nodup_append]
    refine ⟨inv.nodup, List.nodup_singleton v, ?_⟩
    intro x hx hxv
    rw [List.mem_singleton.mp hxv] at hx
    exact hnew hx
  · simp only [List.length_append, List.length_singleton]
    omega
  · rw [h_stA]
    simp
  · intro i h
    have hlen' : (mem ++ [v]).length = mem.length + 1 := by simp
    rw [hlen'] at h
    by_cases hi : i < mem.length
    · rw [h_stBi i hi, inv.elem_eq i hi]
      exact (get_append_first mem v i hi (by simp; omega)).symm
    · have hiL : i = mem.length := by omega
      subst hiL
      rw [h_stBL]
      exact (get_append_last mem v (by simp)).symm
  · intro j h
    have hlen' : (mem ++ [v]).length = mem.length + 1 := by simp
    by_cases hj : j < mem.length
    · have hget : (mem ++ [v]).get ⟨j, h⟩ = mem.get ⟨j, hj⟩ :=
        get_append_first mem v j hj h
      rw [hget]
      have hwU : mem.get ⟨j, hj⟩ ∈ U := inv.sub _ (List.get_mem mem j hj)
      have hwv : mem.get ⟨j, hj⟩ ≠ v := by
        intro hcontra
        exact hnew (hcontra ▸ List.get_mem mem j hj)
      rw [h_stMw _ hwU hwv]
      exact inv.map_idx j hj
    · have hjL : j = mem.length := by
        rw [hlen'] at h
        omega
      subst hjL
      have hget : (mem ++ [v]).get ⟨mem.length, h⟩ = v := get_append_last mem v h
      rw [hget, h_stMv]
  · intro w hwU hwnot
    have hwmem : w ∉ mem := fun hw => hwnot (List.mem_append.mpr (Or.inl hw))
    have hwv : w ≠ v := fun hw =>
      hwnot (List.mem_append.mpr (Or.inr (List.mem_singleton.mpr hw)))
    rw [h_stMw w hwU hwv]
    exact inv.map_non w hwU hwmem
  · intro s hsA hsB hsM
    have hsBL : s ≠ K.k1 (setArrayId K id) + mem.length := hsB mem.length hroom
    have hsMv : s ≠ mapKey K (setMapId K id) v :=
      hsM v (List.mem_append.mpr (Or.inr (List.mem_singleton.mpr rfl)))
    rw [upd_other _ _ _ _ hsBL, upd_other _ _ _ _ hsA, upd_other _ _ _ _ hsMv]
    exact inv.frame s hsA hsB fun w hw => hsM w (List.mem_append.mpr (Or.inl hw))

theorem runAdds_inv (K : KeccakModel) (id : Nat) (U : List Nat) (N : Nat)
    (hK : SetModelOk K id U N) (vs : List Nat) :
    ∀ (st : Nat → Nat) (mem : List Nat),
      (∀ v, v ∈ vs → v ∈ U) → SetInv K id U N st mem →
      mem.length + vs.length ≤ N →
      ∃ st', runSetOps K id st (vs.map SetOp.add) = Except.ok st' ∧
        SetInv K id U N st' (foldAdd mem vs) := by
  induction vs with
  | nil =>
    intro st mem _ inv _
    exact ⟨st, rfl, by simpa [foldAdd] using inv⟩
  | cons v rest ih =>
    intro st mem hvs inv hlen
    have hfold : foldAdd mem (v :: rest) =
        foldAdd (if v ∈ mem then mem else mem ++ [v]) rest := by
      simp [foldAdd]
    have hvU : v ∈ U := hvs v (List.mem_cons_self v rest)
    have hrest : ∀ w, w ∈ rest → w ∈ U :=
      fun w hw => hvs w (List.mem_cons_of_mem v hw)
    by_cases hmem : v ∈ mem
    · have hadd := setAdd_of_mem K id U N st mem hK inv v hvU hmem
      obtain ⟨st', h1, h2⟩ := ih st mem hrest inv (by simp at hlen ⊢; omega)
      refine ⟨st', ?_, ?_⟩
      · simp only [List.map_cons, runSetOps, hadd]
        exact h1
      · rw [hfold, if_pos hmem]
        exact h2
    · have hroom : mem.length < N := by simp at hlen; omega
      obtain ⟨st1, hok, inv1⟩ :=
        setAdd_step K id U N st mem hK inv v hvU hmem hroom
      obtain ⟨st', h1, h2⟩ := ih st1 (mem ++ [v]) hrest inv1
        (by simp at hlen ⊢; omega)
      refine ⟨st', ?_, ?_⟩
      · simp only [List.map_cons, runSetOps, hok]
        exact h1
      · rw [hfold, if_neg hmem]
        exact h2

/-- **C7 (amended).** For any sequence of `Add` operations over values
`vs`, run from an empty set (under the collision-freeness facts
`SetModelOk` about the derived slots, true of Keccak-256 on the finitely
many slots involved barring a hash collision): every operation succeeds;
`Has(v)` is true for exactly the values that were `Add`-ed (true on `vs`,
false on any outside value whose mapping slot avoids the touched slots);
`Add` is idempotent — re-adding any already-present value returns the state
unchanged; and `Size()` equals the number of distinct `Add`-ed values.
`Remove`, by contrast, leaves the displaced last element's index-mapping
entry stale, breaking these invariants (see the counterexample): the
original claim holds only for `Add`-only histories. -/
theorem set_add_only_spec (K : KeccakModel) (id : Nat) (vs : List Nat)
    (hK : SetModelOk K id vs vs.length) :
    ∃ st, runSetOps K id zeroSt (vs.map SetOp.add) = Except.ok st ∧
      (∀ v, v ∈ vs → setHas K id st v = true) ∧
      (∀ v, v ∈ vs → setAdd K id st v = Except.ok st) ∧
      setSize K id st = ((foldAdd [] vs).length : Int) ∧
      (foldAdd [] vs).Nodup ∧
      (∀ v, v ∈ foldAdd [] vs ↔ v ∈ vs) ∧
      (∀ v, v ∉ vs →
        mapKey K (setMapId K id) v ≠ setArrayId K id →
        (∀ i, i < vs.length →
          mapKey K (setMapId K id) v ≠ K.k1 (setArrayId K id) + i) →
        (∀ w, w ∈ vs →
          mapKey K (setMapId K id) v ≠ mapKey K (setMapId K id) w) →
        setHas K id st v = false) := by
  have inv0 : SetInv K id vs vs.length zeroSt [] := by
    refine ⟨?_, List.nodup_nil, ?_, rfl, ?_, ?_, ?_, ?_⟩
    · intro v hv; simp at hv
    · simp
    · intro i h; simp at h
    · intro i h; simp at h
    · intro v _ _; rfl
    · intro s _ _ _; rfl
  obtain ⟨st, hrun, inv⟩ := runAdds_inv K id vs vs.length hK vs zeroSt []
    (fun v hv => hv) inv0 (by simp)
  have hmemM : ∀ v, v ∈ foldAdd [] vs ↔ v ∈ vs := by
    intro v
    rw [mem_foldAdd vs [] v]
    simp
  refine ⟨st, hrun, ?_, ?_, ?_, inv.nodup, hmemM, ?_⟩
  · intro v hv
    rw [setHas_of_inv K id vs vs.length st (foldAdd [] vs) hK inv v hv]
    simp [(hmemM v).mpr hv]
  · intro v hv
    exact setAdd_of_mem K id vs vs.length st (foldAdd [] vs) hK inv v
      hv ((hmemM v).mpr hv)
  · exact setSize_of_inv K id vs vs.length st (foldAdd [] vs) hK inv
  · intro v hvnot hA hB hM
    have hmv : st (mapKey K (setMapId K id) v) = 0 := by
      apply inv.frame _ hA hB
      intro w hw
      exact hM w ((hmemM w).mp hw)
    apply setHas_false_aux K id vs vs.length st (foldAdd [] vs) hK inv v hmv
    intro h0 heq
    have hg : (foldAdd [] vs).get ⟨0, h0⟩ ∈ foldAdd [] vs :=
      List.get_mem _ 0 h0
    rw [← heq] at hg
    exact hvnot ((hmemM v).mp hg)

/-- Witness for `set_add_only_spec`: the history `Add 11; Add 12; Add 11`
over the concrete hash model, with the collision-freeness side conditions
checked by evaluation. -/
theorem set_add_only_spec_witness :
    ∃ st, runSetOps Kc 3 zeroSt ([11, 12, 11].map SetOp.add) = Except.ok st ∧
      (∀ v, v ∈ [11, 12, 11] → setHas Kc 3 st v = true) ∧
      (∀ v, v ∈ [11, 12, 11] → setAdd Kc 3 st v = Except.ok st) ∧
      setSize Kc 3 st = ((foldAdd [] [11, 12, 11]).length : Int) ∧
      (foldAdd [] [11, 12, 11]).Nodup ∧
      (∀ v, v ∈ foldAdd [] [11, 12, 11] ↔ v ∈ [11, 12, 11]) ∧
      (∀ v, v ∉ [11, 12, 11] →
        mapKey Kc (setMapId Kc 3) v ≠ setArrayId Kc 3 →
        (∀ i, i < [11, 12, 11].length →
          mapKey Kc (setMapId Kc 3) v ≠ Kc.k1 (setArrayId Kc 3) + i) →
        (∀ w, w ∈ [11, 12, 11] →
          mapKey Kc (setMapId Kc 3) v ≠ mapKey Kc (setMapId Kc 3) w) →
        setHas Kc 3 st v = false) :=
  set_add_only_spec Kc 3 [11, 12, 11]
    ⟨by decide, by decide, by decide, by decide, by decide, by decide⟩
